import Mathlib

/-!
Verification of the blueprint rendering / string-transformation core of the
falco `crud` command (`src/falco/commands/model_crud.py`).

Python strings are modelled as `List Char`; `str.lower` is modelled by
`Char.toLower` (faithful on ASCII input, which is all the program handles);
`str.find`, slicing, `str.replace`, `str.split`, `str.startswith` and
`str.endswith` are modelled by the executable functions below, following
CPython semantics (`find` yields -1 when absent, slice indices are clamped,
negative indices count from the end, `replace` rewrites non-overlapping
occurrences left to right).
-/

namespace Falco

/-- Text of a Python string literal as a list of characters. -/
def strL (s : String) : List Char := s.data

/-- Model of `str.lower` (ASCII). -/
def pyLower (s : List Char) : List Char := s.map Char.toLower

/-- First index at which `pat` occurs in `text`, if any (Python `str.find` core). -/
def pyFindNat (text pat : List Char) : Option Nat :=
  if pat.isPrefixOf text then some 0
  else
    match text with
    | [] => none
    | _ :: t => (pyFindNat t pat).map (· + 1)

/-- Model of Python `str.find`: first occurrence index, or -1 when absent. -/
def pyFind (text pat : List Char) : Int :=
  match pyFindNat text pat with
  | some n => (n : Int)
  | none => -1

/-- Resolve a (possibly negative) Python slice index against a length. -/
def resolveIdx (len : Nat) (i : Int) : Nat :=
  if i < 0 then ((len : Int) + i).toNat else min i.toNat len

/-- Model of the Python slice `text[a:b]`. -/
def pySlice (text : List Char) (a b : Int) : List Char :=
  (text.take (resolveIdx text.length b)).drop (resolveIdx text.length a)

/-- Model of Python `str.replace` on a nonempty needle `o :: os`, with explicit
fuel (always called with `fuel = s.length`, which suffices). -/
def replaceFuel (o : Char) (os new : List Char) : Nat → List Char → List Char
  | _, [] => []
  | 0, s => s
  | fuel + 1, c :: rest =>
    if (o :: os).isPrefixOf (c :: rest) then
      new ++ replaceFuel o os new fuel (rest.drop os.length)
    else
      c :: replaceFuel o os new fuel rest

/-- Model of Python `str.replace` (all non-overlapping occurrences, left to right). -/
def pyReplace (s old new : List Char) : List Char :=
  match old with
  | [] => new ++ s.flatMap (fun c => c :: new)
  | o :: os => replaceFuel o os new s.length s

/-- All indices at which `pat` occurs in `text` (specification helper). -/
def matchPositions (text pat : List Char) : List Nat :=
  (List.range (text.length + 1)).filter (fun k => pat.isPrefixOf (text.drop k))

/-- Concatenation of `parts` with `sep` between consecutive parts
(specification helper used to state "every occurrence" properties). -/
def joinWith (sep : List Char) : List (List Char) → List Char
  | [] => []
  | [s] => s
  | s :: s₂ :: rest => s ++ sep ++ joinWith sep (s₂ :: rest)

/-- Model of Python `str.split` on a single-character separator. -/
def pySplitChar (sep : Char) : List Char → List (List Char)
  | [] => [[]]
  | c :: t =>
    match pySplitChar sep t with
    | [] => [[c]]
    | h :: r => if c = sep then [] :: h :: r else (c :: h) :: r

/-- Truthiness of an optional Python string (`None` and `""` are falsy). -/
def truthy : Option (List Char) → Bool
  | some (_ :: _) => true
  | _ => false

/-- Marker `# IMPORTS:START` (module constant `IMPORT_START_COMMENT`). -/
def IMPORT_START_COMMENT : List Char := strL "# IMPORTS:START"

/-- Marker `# IMPORTS:END` (module constant `IMPORT_END_COMMENT`). -/
def IMPORT_END_COMMENT : List Char := strL "# IMPORTS:END"

/-- Marker `# CODE:START` (module constant `CODE_START_COMMENT`). -/
def CODE_START_COMMENT : List Char := strL "# CODE:START"

/-- Marker `# CODE:END` (module constant `CODE_END_COMMENT`). -/
def CODE_END_COMMENT : List Char := strL "# CODE:END"

/-- Embedding of `extract_content_from` (model_crud.py lines 73-76):
`text[text.find(start_comment) + len(start_comment) : text.find(end_comment)]`. -/
def extract_content_from (text start_comment end_comment : List Char) : List Char :=
  pySlice text (pyFind text start_comment + (start_comment.length : Int)) (pyFind text end_comment)

/-- Embedding of `get_urls` (lines 79-86): the f-string of the five URL patterns. -/
def get_urls (model_name_lower urlsafe_model_verbose_name_plural : List Char) : List Char :=
  strL "\n        path(\x27" ++ urlsafe_model_verbose_name_plural ++ strL "/\x27, views." ++
    model_name_lower ++ strL "_list, name=\x27" ++ model_name_lower ++ strL "_list\x27),\n        path(\x27" ++
    urlsafe_model_verbose_name_plural ++ strL "/create/\x27, views." ++
    model_name_lower ++ strL "_create, name=\x27" ++ model_name_lower ++ strL "_create\x27),\n        path(\x27" ++
    urlsafe_model_verbose_name_plural ++ strL "/<int:pk>/\x27, views." ++
    model_name_lower ++ strL "_detail, name=\x27" ++ model_name_lower ++ strL "_detail\x27),\n        path(\x27" ++
    urlsafe_model_verbose_name_plural ++ strL "/<int:pk>/update/\x27, views." ++
    model_name_lower ++ strL "_update, name=\x27" ++ model_name_lower ++ strL "_update\x27),\n        path(\x27" ++
    urlsafe_model_verbose_name_plural ++ strL "/<int:pk>/delete/\x27, views." ++
    model_name_lower ++ strL "_delete, name=\x27" ++ model_name_lower ++ strL "_delete\x27),\n    "

/-- The URL-safe slug built at line 311:
`model_verbose_name_plural.lower().replace(" ", "-")`. -/
def urlsafe_plural (s : List Char) : List Char :=
  pyReplace (pyLower s) (strL " ") (strL "-")

/-- Entry-point collapsing applied to `urls_content` (lines 317-319). -/
def entryUrlPass (urlsafe model_name_lower s : List Char) : List Char :=
  pyReplace (pyReplace (pyReplace s (urlsafe ++ strL "/") []) (strL "list") (strL "index"))
    (model_name_lower ++ strL "_") []

/-- Entry-point collapsing applied to `code_content` (lines 320-321). -/
def entryCodePass (model_name_lower s : List Char) : List Char :=
  pyReplace (pyReplace s (model_name_lower ++ strL "_") []) (strL "list") (strL "index")

/-- Entry-point collapsing applied to rendered HTML content (lines 375-376). -/
def entryHtmlCollapse (model_name_lower s : List Char) : List Char :=
  pyReplace (pyReplace s (model_name_lower ++ strL "_") []) (strL "list") (strL "index")

/-- The ordered literal substitution table of `patch_paginations_variables`
(lines 385-395), with `model_name_lower` interpolated. -/
def conversionMap (model_name_lower : List Char) : List (List Char × List Char) :=
  [ (strL "products.has_previous", model_name_lower ++ strL "s.has_previous"),
    (strL "products.has_next", model_name_lower ++ strL "s.has_next"),
    (strL "products.paginator.page_range", model_name_lower ++ strL "s.paginator.page_range"),
    (strL "products.number", model_name_lower ++ strL "s.number"),
    (strL "products.next_page_number", model_name_lower ++ strL "s.next_page_number"),
    (strL "products.previous_page_number", model_name_lower ++ strL "s.previous_page_number"),
    (strL "products.num_pages", model_name_lower ++ strL "s.num_pages"),
    (strL "products.paginator.num_pages", model_name_lower ++ strL "s.paginator.num_pages"),
    (strL "for product in products", strL "for " ++ model_name_lower ++ strL " in " ++ model_name_lower ++ strL "s") ]

/-- Embedding of `ModelCRUD.patch_paginations_variables` (lines 382-398). -/
def patch_paginations_variables (model_name_lower content : List Char) : List Char :=
  (conversionMap model_name_lower).foldl (fun c p => pyReplace c p.1 p.2) content

/-- Destination filename computation of `generate_html_templates` (lines 362-367). -/
def destFilename (model_name_lower blueprint_name : List Char) (entry_point : Bool) : List Char :=
  let new_filename := model_name_lower ++ strL "_" ++ blueprint_name
  let new_filename := if entry_point then blueprint_name else new_filename
  if (strL "list").isPrefixOf new_filename then pyReplace new_filename (strL "list") (strL "index")
  else new_filename

/-- The `PythonBlueprintContext` dictionary (lines 19-23). -/
structure PyCtx where
  app_label : List Char
  model_name : List Char
  model_verbose_name_plural : List Char
  model_fields : List (List Char × List Char)

/-- The `HtmlBlueprintContext` dictionary (lines 26-36). -/
structure HtmlCtx where
  app_label : List Char
  model_name : List Char
  model_verbose_name_plural : List Char
  model_fields : List (List Char × List Char)
  fields_verbose_name_with_accessor : List (List Char × List Char)
  list_view_url : List Char
  create_view_url : List Char
  detail_view_url : List Char
  update_view_url : List Char
  delete_view_url : List Char

/-- A `DjangoModel` dictionary (lines 39-42). -/
structure DjangoModelL where
  name : List Char
  verbose_name_plural : List Char
  fields : List (List Char × List Char)

/-- Accumulator of the per-blueprint loop of `generate_python_code` (lines 303-305). -/
structure GenAcc where
  imports_content : List Char
  code_content : List Char
  urls_content : List Char

/-- One iteration of the context loop of `generate_python_code` (lines 307-321). -/
def genStep (render : List Char → PyCtx → List Char) (imports_template code_template : List Char)
    (entry_point : Bool) (acc : GenAcc) (context : PyCtx) : GenAcc :=
  let model_name_lower := pyLower context.model_name
  let imports_content := acc.imports_content ++ render imports_template context
  let code_content := acc.code_content ++ render code_template context
  let urlsafe := urlsafe_plural context.model_verbose_name_plural
  let urls_content := acc.urls_content ++ get_urls model_name_lower urlsafe
  if entry_point then
    { imports_content := imports_content,
      code_content := entryCodePass model_name_lower code_content,
      urls_content := entryUrlPass urlsafe model_name_lower urls_content }
  else
    { imports_content := imports_content,
      code_content := code_content,
      urls_content := urls_content }

/-- The whole context loop of `generate_python_code`, starting from the empty
accumulators of lines 303-305. -/
def genLoop (render : List Char → PyCtx → List Char) (imports_template code_template : List Char)
    (entry_point : Bool) (contexts : List PyCtx) : GenAcc :=
  contexts.foldl (genStep render imports_template code_template entry_point)
    { imports_content := [], code_content := [], urls_content := [] }

/-- Embedding of `ModelCRUD._initial_urls_content` (lines 336-346). -/
def initial_urls_content (app_label urls_content : List Char) : List Char :=
  strL "\nfrom django.urls import path\nfrom . import views\n\napp_name = \"" ++ app_label ++
    strL "\"\n\nurlpatterns = [\n" ++ urls_content ++ strL "\n]\n        "

/-- Embedding of `ModelCRUD.generate_python_code` (lines 276-334).  Files are
modelled as `(name, content)` pairs; `read_text` gives the pre-existing content
of a file after `touch` (empty for fresh files); `urls_exists` tells whether
`urls.py` already exists. -/
def generate_python_code (render : List Char → PyCtx → List Char) (app_label : List Char)
    (blueprints : List (List Char × List Char)) (read_text : List Char → List Char)
    (urls_exists : Bool) (contexts : List PyCtx) (entry_point : Bool) :
    List (List Char × List Char) :=
  let step := fun (st : List (List Char × List Char) × List Char) (bp : List Char × List Char) =>
    let imports_template := extract_content_from bp.2 IMPORT_START_COMMENT IMPORT_END_COMMENT
    let code_template := extract_content_from bp.2 CODE_START_COMMENT CODE_END_COMMENT
    let file_name_without_bp := joinWith (strL ".") ((pySplitChar '.' bp.1).dropLast)
    let acc := genLoop render imports_template code_template entry_point contexts
    (st.1 ++ [(file_name_without_bp,
       acc.imports_content ++ read_text file_name_without_bp ++ acc.code_content)],
     acc.urls_content)
  let res := blueprints.foldl step ([], [])
  let urls_file :=
    if urls_exists then
      (strL "urls.py", read_text (strL "urls.py") ++ strL "\nurlpatterns +=[" ++ res.2 ++ strL "]")
    else
      (strL "urls.py", initial_urls_content app_label res.2)
  res.1 ++ [urls_file]

/-- Embedding of `ModelCRUD.generate_html_templates` (lines 348-380).  Written
files are returned as `(filename, content)` pairs in append order. -/
def generate_html_templates (render : List Char → HtmlCtx → List Char)
    (blueprints : List (List Char × List Char)) (contexts : List HtmlCtx)
    (entry_point : Bool) : List (List Char × List Char) :=
  blueprints.foldl
    (fun updated bp =>
      contexts.foldl
        (fun updated context =>
          let model_name_lower := pyLower context.model_name
          let new_filename := destFilename model_name_lower bp.1 entry_point
          let views_content := render bp.2 context
          let views_content := patch_paginations_variables model_name_lower views_content
          let views_content :=
            if entry_point then
              pyReplace (pyReplace views_content (model_name_lower ++ strL "_") [])
                (strL "list") (strL "index")
            else views_content
          updated ++ [(new_filename, views_content)])
        updated)
    []

/-- Embedding of `get_urls_template_string` (lines 89-96), producing the five
URL template strings of the HTML context. -/
def get_urls_template_string (app_label model_name_lower : List Char) :
    List Char × List Char × List Char × List Char × List Char :=
  ( strL "\x7b% url \x27" ++ app_label ++ strL ":" ++ model_name_lower ++ strL "_list\x27 %\x7d",
    strL "\x7b% url \x27" ++ app_label ++ strL ":" ++ model_name_lower ++ strL "_create\x27 %\x7d",
    strL "\x7b% url \x27" ++ app_label ++ strL ":" ++ model_name_lower ++ strL "_detail\x27 " ++
      model_name_lower ++ strL ".pk %\x7d",
    strL "\x7b% url \x27" ++ app_label ++ strL ":" ++ model_name_lower ++ strL "_update\x27 " ++
      model_name_lower ++ strL ".pk %\x7d",
    strL "\x7b% url \x27" ++ app_label ++ strL ":" ++ model_name_lower ++ strL "_delete\x27 " ++
      model_name_lower ++ strL ".pk %\x7d" )

/-- The python context built for one model (lines 216-223). -/
def buildPyCtx (app_label : List Char) (dm : DjangoModelL) : PyCtx :=
  { app_label := app_label,
    model_name := dm.name,
    model_verbose_name_plural := dm.verbose_name_plural,
    model_fields := dm.fields }

/-- The HTML context built for one model (lines 224-239). -/
def buildHtmlCtx (app_label : List Char) (dm : DjangoModelL) : HtmlCtx :=
  let urls := get_urls_template_string app_label (pyLower dm.name)
  { app_label := app_label,
    model_name := dm.name,
    model_verbose_name_plural := dm.verbose_name_plural,
    model_fields := dm.fields,
    fields_verbose_name_with_accessor :=
      dm.fields.map (fun f =>
        (f.2, strL "\x7b\x7b" ++ pyLower dm.name ++ strL "." ++ f.1 ++ strL "\x7d\x7d")),
    list_view_url := urls.1,
    create_view_url := urls.2.1,
    detail_view_url := urls.2.2.1,
    update_view_url := urls.2.2.2.1,
    delete_view_url := urls.2.2.2.2 }

/-- The command-line arguments of the `ModelCRUD` command (lines 144-175).
`blueprints = []` models the empty default of `--blueprints`. -/
structure CrudArgs where
  model_path : List Char
  blueprints : List Char
  excluded_fields : List (List Char)
  only_python : Bool
  only_html : Bool
  entry_point : Bool

/-- Results of the external collaborators queried by `ModelCRUD.__call__`:
the model metadata returned by the running application, the files of the
user-supplied blueprints directory and the packaged default HTML blueprints. -/
structure CrudEnv where
  all_django_models : List DjangoModelL
  user_blueprint_files : List (List Char × List Char)
  default_html_blueprints : List (List Char × List Char)

/-- Outcome of one `ModelCRUD.__call__` run: either a `cappa.Exit` with a
message and an exit code, or normal completion with the written files. -/
inductive CallResult where
  | exited (msg : List Char) (code : Nat)
  | completed (python_files html_files : List (List Char × List Char))

/-- Exit code of a run (`none` when the run completed normally). -/
def exitCode : CallResult → Option Nat
  | .exited _ c => some c
  | .completed _ _ => none

/-- Embedding of `resolve_html_blueprints` (lines 133-140). -/
def resolve_html_blueprints (user_blueprints_path : List Char)
    (user_files default_files : List (List Char × List Char)) :
    Except (List Char × Nat) (List (List Char × List Char)) :=
  if user_blueprints_path ≠ [] then
    let html_blueprints := user_files.filter (fun f => (strL ".html").isSuffixOf f.1)
    if html_blueprints = [] then
      .error (strL "No html blueprints found in " ++ user_blueprints_path, 1)
    else .ok html_blueprints
  else .ok default_files

/-- Embedding of the decision flow of `ModelCRUD.__call__` (lines 177-274).
External effects (shell introspection, file reads, formatter runs) are
parameters; the control flow, error exits and generation calls follow the
source order. -/
def crudCall (args : CrudArgs) (env : CrudEnv)
    (python_blueprints : List (List Char × List Char)) (read_text : List Char → List Char)
    (urls_exists : Bool) (renderPy : List Char → PyCtx → List Char)
    (renderHtml : List Char → HtmlCtx → List Char) : CallResult :=
  let v := pySplitChar '.' args.model_path
  let name : Option (List Char) := if v.length = 1 then none else some (v.getLastD [])
  let app_label : List Char :=
    if v.length = 1 then v.headD [] else joinWith (strL ".") v.dropLast
  if args.entry_point && !(truthy name) then
    .exited (strL "The --entry-point option requires a full model path.") 1
  else
    let django_models : Except (List Char × Nat) (List DjangoModelL) :=
      if truthy name then
        match env.all_django_models.find?
            (fun dm => pyLower dm.name == pyLower ((name.getD []))) with
        | some dm => .ok [dm]
        | none =>
          .error (strL "Model " ++ name.getD [] ++ strL " not found in app " ++ app_label, 1)
      else .ok env.all_django_models
    match django_models with
    | .error e => .exited e.1 e.2
    | .ok django_models =>
      let python_blueprint_context := django_models.map (buildPyCtx app_label)
      let html_blueprint_context := django_models.map (buildHtmlCtx app_label)
      let updated_python_files :=
        if !args.only_html then
          generate_python_code renderPy app_label python_blueprints read_text urls_exists
            python_blueprint_context args.entry_point
        else []
      match resolve_html_blueprints args.blueprints env.user_blueprint_files
          env.default_html_blueprints with
      | .error e => .exited e.1 e.2
      | .ok html_blueprints =>
        let updated_html_files :=
          if !args.only_python then
            generate_html_templates renderHtml html_blueprints html_blueprint_context
              args.entry_point
          else []
        .completed updated_python_files updated_html_files

end Falco

namespace Falco

theorem replaceFuel_congr (o : Char) (os new : List Char) :
    ∀ f₁ f₂ s, s.length ≤ f₁ → s.length ≤ f₂ →
      replaceFuel o os new f₁ s = replaceFuel o os new f₂ s := by
  intro f₁
  induction f₁ with
  | zero =>
    intro f₂ s h₁ _
    have hs : s = [] := List.length_eq_zero.mp (Nat.le_zero.mp h₁)
    subst hs
    cases f₂ <;> rfl
  | succ g ih =>
    intro f₂ s h₁ h₂
    cases s with
    | nil => cases f₂ <;> rfl
    | cons c rest =>
      cases f₂ with
      | zero => simp at h₂
      | succ g₂ =>
        simp only [replaceFuel]
        by_cases hpre : (o :: os).isPrefixOf (c :: rest) = true
        · rw [if_pos hpre, if_pos hpre]
          have hd : (rest.drop os.length).length ≤ rest.length := by
            simp [List.length_drop]
          have hg : (rest.drop os.length).length ≤ g := by
            simp at h₁
            omega
          have hg₂ : (rest.drop os.length).length ≤ g₂ := by
            simp at h₂
            omega
          rw [ih g₂ (rest.drop os.length) hg hg₂]
        · rw [if_neg hpre, if_neg hpre]
          have hg : rest.length ≤ g := by
            simp at h₁
            exact h₁
          have hg₂ : rest.length ≤ g₂ := by
            simp at h₂
            exact h₂
          rw [ih g₂ rest hg hg₂]

theorem pyReplace_nil (o : Char) (os new : List Char) : pyReplace [] (o :: os) new = [] := rfl

theorem pyReplace_cons_hit {o : Char} {os : List Char} {c : Char} {rest : List Char}
    (new : List Char) (h : (o :: os).isPrefixOf (c :: rest) = true) :
    pyReplace (c :: rest) (o :: os) new = new ++ pyReplace (rest.drop os.length) (o :: os) new := by
  show replaceFuel o os new (rest.length + 1) (c :: rest) = _
  simp only [replaceFuel, if_pos h]
  congr 1
  exact replaceFuel_congr o os new rest.length (rest.drop os.length).length (rest.drop os.length)
    (by simp [List.length_drop]) (Nat.le_refl _)

theorem pyReplace_cons_miss {o : Char} {os : List Char} {c : Char} {rest : List Char}
    (new : List Char) (h : (o :: os).isPrefixOf (c :: rest) = false) :
    pyReplace (c :: rest) (o :: os) new = c :: pyReplace rest (o :: os) new := by
  show replaceFuel o os new (rest.length + 1) (c :: rest) = _
  simp only [replaceFuel, if_neg (by simp [h] : ¬ (o :: os).isPrefixOf (c :: rest) = true)]
  rfl

end Falco

namespace Falco

theorem isPrefixOf_self_append (l v : List Char) : l.isPrefixOf (l ++ v) = true :=
  List.isPrefixOf_iff_prefix.mpr (List.prefix_append l v)

theorem isPrefixOf_cons_of_ne {o c : Char} (os t : List Char) (h : c ≠ o) :
    (o :: os).isPrefixOf (c :: t) = false := by
  simp [List.isPrefixOf]
  intro he
  exact absurd he.symm h

theorem pyReplace_skip {o : Char} (os new : List Char) :
    ∀ s w, (∀ c ∈ s, c ≠ o) →
      pyReplace (s ++ w) (o :: os) new = s ++ pyReplace w (o :: os) new := by
  intro s
  induction s with
  | nil => intro w _; rfl
  | cons c s' ih =>
    intro w hc
    have hne : c ≠ o := hc c (by simp)
    rw [List.cons_append, pyReplace_cons_miss new (isPrefixOf_cons_of_ne os (s' ++ w) hne)]
    rw [ih w (fun x hx => hc x (by simp [hx]))]
    rfl

theorem pyReplace_hit (o : Char) (os new v : List Char) :
    pyReplace ((o :: os) ++ v) (o :: os) new = new ++ pyReplace v (o :: os) new := by
  rw [List.cons_append,
    pyReplace_cons_hit new (by rw [← List.cons_append]; exact isPrefixOf_self_append (o :: os) v)]
  rw [List.drop_left]

theorem pyReplace_noocc_char {o : Char} (os new : List Char) (s : List Char)
    (hs : ∀ c ∈ s, c ≠ o) : pyReplace s (o :: os) new = s := by
  have h := pyReplace_skip os new s [] hs
  rw [List.append_nil] at h
  rw [h, pyReplace_nil, List.append_nil]

theorem pyReplace_noocc_infix {o : Char} {os : List Char} (new : List Char) :
    ∀ s, ¬ (o :: os) <:+: s → pyReplace s (o :: os) new = s := by
  intro s
  induction s with
  | nil => intro _; rfl
  | cons c rest ih =>
    intro h
    cases hpre : (o :: os).isPrefixOf (c :: rest) with
    | false =>
      rw [pyReplace_cons_miss new hpre]
      rw [ih (fun hi => h (List.infix_cons hi))]
    | true =>
      have ht : (o :: os) <+: (c :: rest) := List.isPrefixOf_iff_prefix.mp hpre
      exact absurd ht.isInfix h

theorem pyReplace_joinWith {o : Char} (os new : List Char) :
    ∀ parts, parts ≠ [] → (∀ s ∈ parts, ∀ c ∈ s, c ≠ o) →
      pyReplace (joinWith (o :: os) parts) (o :: os) new = joinWith new parts := by
  intro parts
  induction parts with
  | nil => intro h _; exact absurd rfl h
  | cons s rest ih =>
    intro _ hfree
    cases rest with
    | nil =>
      exact pyReplace_noocc_char os new s (hfree s (by simp))
    | cons s₂ r =>
      show pyReplace ((s ++ (o :: os)) ++ joinWith (o :: os) (s₂ :: r)) (o :: os) new = _
      rw [List.append_assoc, pyReplace_skip os new s _ (hfree s (by simp))]
      rw [pyReplace_hit o os new _]
      rw [ih (by simp) (fun x hx => hfree x (by simp [hx]))]
      show _ = (s ++ new) ++ joinWith new (s₂ :: r)
      rw [List.append_assoc]

theorem mem_joinWith {c : Char} (sep : List Char) :
    ∀ parts, c ∈ joinWith sep parts → c ∈ sep ∨ ∃ s ∈ parts, c ∈ s := by
  intro parts
  induction parts with
  | nil => intro h; simp [joinWith] at h
  | cons s rest ih =>
    intro h
    cases rest with
    | nil =>
      right
      exact ⟨s, by simp, h⟩
    | cons s₂ r =>
      simp only [joinWith, List.append_assoc, List.mem_append] at h
      rcases h with hs | hsep | hrest
      · right
        exact ⟨s, by simp, hs⟩
      · left
        exact hsep
      · rcases ih hrest with h | ⟨t, ht, hc⟩
        · left
          exact h
        · right
          exact ⟨t, by simp [ht], hc⟩

end Falco

namespace Falco

theorem isPrefixOf_nil_eq {pat : List Char} (h : pat.isPrefixOf ([] : List Char) = true) :
    pat = [] := by
  cases pat with
  | nil => rfl
  | cons c t => simp [List.isPrefixOf] at h

theorem pyFindNat_some_match :
    ∀ text pat n, pyFindNat text pat = some n → pat.isPrefixOf (text.drop n) = true := by
  intro text
  induction text with
  | nil =>
    intro pat n h
    by_cases hp : pat.isPrefixOf ([] : List Char) = true
    · simp [pyFindNat, hp] at h
      subst h
      exact hp
    · simp [pyFindNat, hp] at h
  | cons c t ih =>
    intro pat n h
    by_cases hp : pat.isPrefixOf (c :: t) = true
    · simp [pyFindNat, hp] at h
      subst h
      exact hp
    · simp [pyFindNat, hp] at h
      rcases h with ⟨m, hm, hn⟩
      subst hn
      simpa using ih pat m hm

theorem pyFindNat_some_min :
    ∀ text pat n, pyFindNat text pat = some n →
      ∀ k, k < n → pat.isPrefixOf (text.drop k) = false := by
  intro text
  induction text with
  | nil =>
    intro pat n h k hk
    by_cases hp : pat.isPrefixOf ([] : List Char) = true
    · simp [pyFindNat, hp] at h
      omega
    · simp [pyFindNat, hp] at h
  | cons c t ih =>
    intro pat n h k hk
    by_cases hp : pat.isPrefixOf (c :: t) = true
    · simp [pyFindNat, hp] at h
      omega
    · simp [pyFindNat, hp] at h
      rcases h with ⟨m, hm, hn⟩
      subst hn
      cases k with
      | zero =>
        simp only [List.drop_zero]
        exact Bool.eq_false_iff.mpr hp
      | succ k' => simpa using ih pat m hm k' (by omega)

theorem pyFindNat_of_match :
    ∀ text pat k, pat.isPrefixOf (text.drop k) = true →
      ∃ n, pyFindNat text pat = some n ∧ n ≤ k := by
  intro text
  induction text with
  | nil =>
    intro pat k h
    have hp : pat.isPrefixOf ([] : List Char) = true := by
      simpa [List.drop_nil] using h
    exact ⟨0, by simp [pyFindNat, hp], Nat.zero_le k⟩
  | cons c t ih =>
    intro pat k h
    by_cases hp : pat.isPrefixOf (c :: t) = true
    · exact ⟨0, by simp [pyFindNat, hp], Nat.zero_le k⟩
    · cases k with
      | zero =>
        simp only [List.drop_zero] at h
        exact absurd h hp
      | succ k' =>
        have h' : pat.isPrefixOf (t.drop k') = true := by simpa using h
        rcases ih pat k' h' with ⟨n, hn, hnk⟩
        exact ⟨n + 1, by simp [pyFindNat, hp, hn], by omega⟩

theorem mem_matchPositions {text pat : List Char} {k : Nat} :
    k ∈ matchPositions text pat ↔ k ≤ text.length ∧ pat.isPrefixOf (text.drop k) = true := by
  simp [matchPositions, List.mem_filter, List.mem_range, Nat.lt_succ_iff]

theorem match_unique_of_singleton {text pat : List Char} {i : Nat}
    (hmp : matchPositions text pat = [i]) (hne : pat ≠ []) :
    ∀ k, pat.isPrefixOf (text.drop k) = true → k = i := by
  intro k hk
  by_cases hlen : k ≤ text.length
  · have : k ∈ matchPositions text pat := mem_matchPositions.mpr ⟨hlen, hk⟩
    rw [hmp] at this
    simpa using this
  · have hd : text.drop k = [] := List.drop_eq_nil_of_le (by omega)
    rw [hd] at hk
    exact absurd (isPrefixOf_nil_eq hk) hne

theorem matchPositions_self_mem {text pat : List Char} {i : Nat}
    (hmp : matchPositions text pat = [i]) :
    i ≤ text.length ∧ pat.isPrefixOf (text.drop i) = true := by
  have : i ∈ matchPositions text pat := by
    rw [hmp]
    simp
  exact mem_matchPositions.mp this

theorem pyFindNat_of_singleton {text pat : List Char} {i : Nat}
    (hmp : matchPositions text pat = [i]) (hne : pat ≠ []) :
    pyFindNat text pat = some i := by
  have hm := (matchPositions_self_mem hmp).2
  rcases pyFindNat_of_match text pat i hm with ⟨n, hn, _⟩
  have := pyFindNat_some_match text pat n hn
  have := match_unique_of_singleton hmp hne n this
  subst this
  exact hn

theorem noMatch_of_matchPositions_nil {text pat : List Char}
    (hmp : matchPositions text pat = []) (hne : pat ≠ []) :
    ∀ k, pat.isPrefixOf (text.drop k) = false := by
  intro k
  cases hk : pat.isPrefixOf (text.drop k) with
  | false => rfl
  | true =>
    by_cases hlen : k ≤ text.length
    · have : k ∈ matchPositions text pat := mem_matchPositions.mpr ⟨hlen, hk⟩
      rw [hmp] at this
      simp at this
    · have hd : text.drop k = [] := List.drop_eq_nil_of_le (by omega)
      rw [hd] at hk
      exact absurd (isPrefixOf_nil_eq hk) hne

theorem pyReplace_of_no_match {o : Char} {os : List Char} (new : List Char) :
    ∀ s, (∀ k, (o :: os).isPrefixOf (s.drop k) = false) →
      pyReplace s (o :: os) new = s := by
  intro s
  induction s with
  | nil => intro _; rfl
  | cons c rest ih =>
    intro h
    rw [pyReplace_cons_miss new (by simpa using h 0)]
    rw [ih (fun k => by simpa using h (k + 1))]

end Falco

namespace Falco

theorem pyReplace_skip_pf {o : Char} (os new : List Char) (ho : o = 'p' ∨ o = 'f')
    (s w : List Char) (hs : ∀ c ∈ s, c ≠ 'p' ∧ c ≠ 'f') :
    pyReplace (s ++ w) (o :: os) new = s ++ pyReplace w (o :: os) new := by
  apply pyReplace_skip
  intro c hc
  rcases ho with h | h
  · rw [h]
    exact (hs c hc).1
  · rw [h]
    exact (hs c hc).2

theorem pyReplace_noocc_head (old new s : List Char) (o : Char) (tail : List Char)
    (hold : old = o :: tail) (ho : o = 'p' ∨ o = 'f')
    (hs : ∀ c ∈ s, c ≠ 'p' ∧ c ≠ 'f') : pyReplace s old new = s := by
  subst hold
  have h := pyReplace_skip_pf tail new ho s [] hs
  rw [List.append_nil] at h
  rw [h, pyReplace_nil, List.append_nil]

theorem pyReplace_pass_block (old new : List Char) (o : Char) (tail : List Char)
    (hold : old = o :: tail) (ho : o = 'p' ∨ o = 'f') (s X : List Char)
    (hs : ∀ c ∈ s, c ≠ 'p' ∧ c ≠ 'f')
    (hpre : old.isPrefixOf (strL "products.has_next" ++ X) = false) :
    pyReplace (s ++ (strL "products.has_next" ++ X)) old new =
      s ++ (strL "products.has_next" ++ pyReplace X old new) := by
  subst hold
  rw [pyReplace_skip_pf tail new ho s _ hs]
  congr 1
  have hk : strL "products.has_next" ++ X = 'p' :: (strL "roducts.has_next" ++ X) := rfl
  rw [hk, pyReplace_cons_miss new (by exact hpre)]
  have htail : ∀ c ∈ strL "roducts.has_next", c ≠ o := by
    rcases ho with h | h
    · rw [h]
      decide
    · rw [h]
      decide
  rw [pyReplace_skip tail new (strL "roducts.has_next") X htail]
  rfl

theorem pyReplace_hit_block (new s X : List Char)
    (hs : ∀ c ∈ s, c ≠ 'p' ∧ c ≠ 'f') :
    pyReplace (s ++ (strL "products.has_next" ++ X)) (strL "products.has_next") new =
      s ++ (new ++ pyReplace X (strL "products.has_next") new) := by
  have hold : strL "products.has_next" = 'p' :: strL "roducts.has_next" := rfl
  rw [hold, pyReplace_skip_pf (strL "roducts.has_next") new (Or.inl rfl) s _ hs]
  congr 1
  exact pyReplace_hit 'p' (strL "roducts.has_next") new X

end Falco

namespace Falco

theorem patch_pf_free (m s : List Char) (hs : ∀ c ∈ s, c ≠ 'p' ∧ c ≠ 'f') :
    patch_paginations_variables m s = s := by
  simp only [patch_paginations_variables, conversionMap, List.foldl]
  rw [pyReplace_noocc_head (strL "products.has_previous") _ s 'p' (strL "roducts.has_previous") (by rfl) (Or.inl rfl) hs]
  rw [pyReplace_noocc_head (strL "products.has_next") _ s 'p' (strL "roducts.has_next") (by rfl) (Or.inl rfl) hs]
  rw [pyReplace_noocc_head (strL "products.paginator.page_range") _ s 'p' (strL "roducts.paginator.page_range") (by rfl) (Or.inl rfl) hs]
  rw [pyReplace_noocc_head (strL "products.number") _ s 'p' (strL "roducts.number") (by rfl) (Or.inl rfl) hs]
  rw [pyReplace_noocc_head (strL "products.next_page_number") _ s 'p' (strL "roducts.next_page_number") (by rfl) (Or.inl rfl) hs]
  rw [pyReplace_noocc_head (strL "products.previous_page_number") _ s 'p' (strL "roducts.previous_page_number") (by rfl) (Or.inl rfl) hs]
  rw [pyReplace_noocc_head (strL "products.num_pages") _ s 'p' (strL "roducts.num_pages") (by rfl) (Or.inl rfl) hs]
  rw [pyReplace_noocc_head (strL "products.paginator.num_pages") _ s 'p' (strL "roducts.paginator.num_pages") (by rfl) (Or.inl rfl) hs]
  rw [pyReplace_noocc_head (strL "for product in products") _ s 'f' (strL "or product in products") (by rfl) (Or.inr rfl) hs]

end Falco

namespace Falco

theorem pyReplace_skip2_pf (old new : List Char) (o : Char) (tail : List Char)
    (hold : old = o :: tail) (ho : o = 'p' ∨ o = 'f') (s t Y : List Char)
    (hs : ∀ c ∈ s, c ≠ 'p' ∧ c ≠ 'f') (ht : ∀ c ∈ t, c ≠ 'p' ∧ c ≠ 'f') :
    pyReplace (s ++ (t ++ Y)) old new = s ++ (t ++ pyReplace Y old new) := by
  subst hold
  rw [pyReplace_skip_pf tail new ho s _ hs]
  congr 1
  exact pyReplace_skip_pf tail new ho t Y ht

theorem patch_step (s X : List Char) (hs : ∀ c ∈ s, c ≠ 'p' ∧ c ≠ 'f') :
    patch_paginations_variables (strL "order") (s ++ (strL "products.has_next" ++ X)) =
      s ++ (strL "orders.has_next" ++ patch_paginations_variables (strL "order") X) := by
  have hv : ∀ c ∈ strL "order" ++ strL "s.has_next", c ≠ 'p' ∧ c ≠ 'f' := by decide
  simp only [patch_paginations_variables, conversionMap, List.foldl]
  rw [pyReplace_pass_block (strL "products.has_previous") _ 'p' (strL "roducts.has_previous") (by rfl) (Or.inl rfl) s X hs (by rfl)]
  rw [pyReplace_hit_block (strL "order" ++ strL "s.has_next") s _ hs]
  rw [pyReplace_skip2_pf (strL "products.paginator.page_range") _ 'p' (strL "roducts.paginator.page_range") (by rfl) (Or.inl rfl) s _ _ hs hv]
  rw [pyReplace_skip2_pf (strL "products.number") _ 'p' (strL "roducts.number") (by rfl) (Or.inl rfl) s _ _ hs hv]
  rw [pyReplace_skip2_pf (strL "products.next_page_number") _ 'p' (strL "roducts.next_page_number") (by rfl) (Or.inl rfl) s _ _ hs hv]
  rw [pyReplace_skip2_pf (strL "products.previous_page_number") _ 'p' (strL "roducts.previous_page_number") (by rfl) (Or.inl rfl) s _ _ hs hv]
  rw [pyReplace_skip2_pf (strL "products.num_pages") _ 'p' (strL "roducts.num_pages") (by rfl) (Or.inl rfl) s _ _ hs hv]
  rw [pyReplace_skip2_pf (strL "products.paginator.num_pages") _ 'p' (strL "roducts.paginator.num_pages") (by rfl) (Or.inl rfl) s _ _ hs hv]
  rw [pyReplace_skip2_pf (strL "for product in products") _ 'f' (strL "or product in products") (by rfl) (Or.inr rfl) s _ _ hs hv]
  rfl

end Falco

namespace Falco

theorem patch_joinWith (parts : List (List Char)) (hne : parts ≠ [])
    (hfree : ∀ s ∈ parts, ∀ c ∈ s, c ≠ 'p' ∧ c ≠ 'f') :
    patch_paginations_variables (strL "order") (joinWith (strL "products.has_next") parts) =
      joinWith (strL "orders.has_next") parts := by
  induction parts with
  | nil => exact absurd rfl hne
  | cons s rest ih =>
    cases rest with
    | nil => exact patch_pf_free (strL "order") s (hfree s (by simp))
    | cons s₂ r =>
      show patch_paginations_variables (strL "order")
          ((s ++ strL "products.has_next") ++ joinWith (strL "products.has_next") (s₂ :: r)) =
        (s ++ strL "orders.has_next") ++ joinWith (strL "orders.has_next") (s₂ :: r)
      rw [List.append_assoc, List.append_assoc]
      rw [patch_step s _ (hfree s (by simp))]
      rw [ih (by simp) (fun x hx => hfree x (by simp [hx]))]

end Falco

namespace Falco

theorem char_toNat_ofNat (n : Nat) (h : n.isValidChar) : (Char.ofNat n).toNat = n := by
  simp [Char.ofNat, dif_pos h, Char.ofNatAux, Char.toNat, UInt32.toNat, BitVec.toNat_ofNatLt]

theorem toLower_idem (c : Char) : c.toLower.toLower = c.toLower := by
  unfold Char.toLower
  by_cases h : c.toNat ≥ 65 ∧ c.toNat ≤ 90
  · rw [if_pos h]
    have hv : (c.toNat + 32).isValidChar := by
      left
      have h2 := h.2
      simp [Char.toNat] at h2 ⊢
      omega
    have hn : (Char.ofNat (c.toNat + 32)).toNat = c.toNat + 32 := char_toNat_ofNat _ hv
    rw [if_neg]
    omega
  · rw [if_neg h, if_neg h]

theorem pyReplace_single_char (c' r : Char) :
    ∀ s, pyReplace s [c'] [r] = s.map (fun c => if c = c' then r else c) := by
  intro s
  induction s with
  | nil => rfl
  | cons c rest ih =>
    by_cases h : c = c'
    · subst h
      rw [pyReplace_cons_hit [r]
        (show ([c]).isPrefixOf (c :: rest) = true from isPrefixOf_self_append [c] rest)]
      simp [ih]
    · rw [pyReplace_cons_miss [r] (isPrefixOf_cons_of_ne [] rest h)]
      simp [ih, h]

theorem urlsafe_plural_as_map (t : List Char) :
    urlsafe_plural t = t.map (fun c => if c.toLower = ' ' then '-' else c.toLower) := by
  show pyReplace (t.map Char.toLower) [' '] ['-'] = _
  rw [pyReplace_single_char ' ' '-' (t.map Char.toLower), List.map_map]
  rfl

theorem urlsafe_step_idem (c : Char) :
    (if (if c.toLower = ' ' then '-' else c.toLower).toLower = ' ' then '-'
     else (if c.toLower = ' ' then '-' else c.toLower).toLower) =
      (if c.toLower = ' ' then '-' else c.toLower) := by
  by_cases hc : c.toLower = ' '
  · rw [if_pos hc]
    decide
  · rw [if_neg hc, toLower_idem, if_neg hc]

end Falco

namespace Falco

theorem genLoop_foldl_false (render : List Char → PyCtx → List Char)
    (imports_template code_template : List Char) :
    ∀ (ctxs : List PyCtx) (acc : GenAcc),
      List.foldl (genStep render imports_template code_template false) acc ctxs =
        { imports_content :=
            acc.imports_content ++ (ctxs.map (fun c => render imports_template c)).flatten,
          code_content :=
            acc.code_content ++ (ctxs.map (fun c => render code_template c)).flatten,
          urls_content :=
            acc.urls_content ++ (ctxs.map (fun c =>
              get_urls (pyLower c.model_name) (urlsafe_plural c.model_verbose_name_plural))).flatten } := by
  intro ctxs
  induction ctxs with
  | nil =>
    intro acc
    simp
  | cons c cs ih =>
    intro acc
    rw [List.foldl_cons, ih]
    simp [genStep, List.append_assoc]

end Falco

namespace Falco

theorem foldl_step_append {α β : Type} (g : List β → α → List β) (block : α → List β)
    (hg : ∀ acc x, g acc x = acc ++ block x) :
    ∀ (l : List α) (acc : List β), List.foldl g acc l = acc ++ l.flatMap block := by
  intro l
  induction l with
  | nil =>
    intro acc
    simp
  | cons x xs ih =>
    intro acc
    rw [List.foldl_cons, hg, ih]
    simp [List.append_assoc]

/-- Claim C8: for every blueprint, context and entry_point setting, the
persisted HTML content is the composition: render, then apply the pagination
patch, then (only when entry_point is set) apply entry-point collapsing. -/
theorem C8_html_pipeline_order (render : List Char → HtmlCtx → List Char)
    (bps : List (List Char × List Char)) (ctxs : List HtmlCtx) (ep : Bool) :
    generate_html_templates render bps ctxs ep =
      bps.flatMap (fun bp => ctxs.map (fun context =>
        (destFilename (pyLower context.model_name) bp.1 ep,
         if ep then
           entryHtmlCollapse (pyLower context.model_name)
             (patch_paginations_variables (pyLower context.model_name) (render bp.2 context))
         else
           patch_paginations_variables (pyLower context.model_name) (render bp.2 context)))) := by
  unfold generate_html_templates
  refine (foldl_step_append _ (fun bp => ctxs.map (fun context =>
      (destFilename (pyLower context.model_name) bp.1 ep,
       if ep then
         entryHtmlCollapse (pyLower context.model_name)
           (patch_paginations_variables (pyLower context.model_name) (render bp.2 context))
       else
         patch_paginations_variables (pyLower context.model_name) (render bp.2 context))))
    ?hOuter bps []).trans (by simp)
  intro acc bp
  refine (foldl_step_append _ (fun context =>
      [(destFilename (pyLower context.model_name) bp.1 ep,
        if ep then
          entryHtmlCollapse (pyLower context.model_name)
            (patch_paginations_variables (pyLower context.model_name) (render bp.2 context))
        else
          patch_paginations_variables (pyLower context.model_name) (render bp.2 context))])
    (fun u c => rfl) ctxs acc).trans ?_
  congr 1
  exact Eq.symm (List.map_eq_flatMap _ ctxs)

end Falco

namespace Falco

theorem isPrefixOf_refl (l : List Char) : l.isPrefixOf l = true :=
  List.isPrefixOf_iff_prefix.mpr (List.prefix_refl l)

theorem pyFindNat_zero {text pat : List Char} (h : pat.isPrefixOf text = true) :
    pyFindNat text pat = some 0 := by
  cases text with
  | nil => simp [pyFindNat, h]
  | cons c t => simp [pyFindNat, h]

theorem pyFind_eq {text pat : List Char} {n : Nat} (h : pyFindNat text pat = some n) :
    pyFind text pat = (n : Int) := by
  unfold pyFind
  rw [h]

theorem resolveIdx_ofNat (len n : Nat) (h : n ≤ len) : resolveIdx len (n : Int) = n := by
  unfold resolveIdx
  rw [if_neg (by simp)]
  simp [Int.toNat_ofNat, Nat.min_eq_left h]

theorem extract_eq_of_finds {text s e : List Char} {i j : Nat}
    (hfs : pyFindNat text s = some i) (hfe : pyFindNat text e = some j)
    (hij : i + s.length ≤ j) (hjle : j ≤ text.length) :
    extract_content_from text s e = (text.take j).drop (i + s.length) := by
  unfold extract_content_from pySlice
  rw [pyFind_eq hfs, pyFind_eq hfe]
  have ha : ((i : Int) + (s.length : Int)) = ((i + s.length : Nat) : Int) := by push_cast; ring
  rw [ha, resolveIdx_ofNat _ _ (by omega), resolveIdx_ofNat _ _ hjle]

end Falco

namespace Falco

/-- Claim C5: for well-formed blueprint text containing exactly one occurrence of
the start marker (at position `i`) followed by exactly one occurrence of the end
marker (at position `j`), wrapping the extracted section between the same markers
and extracting again yields a byte-identical section. -/
theorem C5_extract_roundtrip (text s e : List Char) (i j : Nat)
    (hsne : s ≠ []) (hene : e ≠ [])
    (hmps : matchPositions text s = [i])
    (hmpe : matchPositions text e = [j])
    (hij : i + s.length ≤ j) :
    extract_content_from (s ++ extract_content_from text s e ++ e) s e =
      extract_content_from text s e := by
  obtain ⟨hile, hsi⟩ := matchPositions_self_mem hmps
  obtain ⟨hjle, hej⟩ := matchPositions_self_mem hmpe
  have hfs : pyFindNat text s = some i := pyFindNat_of_singleton hmps hsne
  have hfe : pyFindNat text e = some j := pyFindNat_of_singleton hmpe hene
  have hsec : extract_content_from text s e = (text.take j).drop (i + s.length) :=
    extract_eq_of_finds hfs hfe hij hjle
  set sec := (text.take j).drop (i + s.length) with hsecdef
  have hseclen : sec.length = j - (i + s.length) := by
    simp [hsecdef, List.length_drop, List.length_take]
    omega
  have hdropi : text.drop i = s ++ text.drop (i + s.length) := by
    obtain ⟨t, ht⟩ := List.isPrefixOf_iff_prefix.mp hsi
    have h1 : t = text.drop (i + s.length) := by
      calc t = List.drop s.length (s ++ t) := (List.drop_left s t).symm
        _ = List.drop s.length (text.drop i) := by rw [ht]
        _ = text.drop (i + s.length) := List.drop_drop s.length i text
    rw [← ht, h1]
  have hdropj : text.drop j = e ++ text.drop (j + e.length) := by
    obtain ⟨t, ht⟩ := List.isPrefixOf_iff_prefix.mp hej
    have h1 : t = text.drop (j + e.length) := by
      calc t = List.drop e.length (e ++ t) := (List.drop_left e t).symm
        _ = List.drop e.length (text.drop j) := by rw [ht]
        _ = text.drop (j + e.length) := List.drop_drop e.length j text
    rw [← ht, h1]
  have hmid : text.drop (i + s.length) = sec ++ text.drop j := by
    have h1 : sec = (text.drop (i + s.length)).take (j - (i + s.length)) := by
      rw [hsecdef, List.drop_take]
    rw [h1]
    conv_lhs => rw [← List.take_append_drop (j - (i + s.length)) (text.drop (i + s.length))]
    congr 1
    rw [List.drop_drop]
    congr 1
    omega
  have htext : text = text.take i ++ (s ++ (sec ++ (e ++ text.drop (j + e.length)))) := by
    conv_lhs => rw [← List.take_append_drop i text]
    rw [hdropi, hmid, hdropj]
  have hAlen : (text.take i).length = i := by
    simp [List.length_take]
    omega
  rw [hsec]
  set W := (s ++ sec) ++ e with hWdef
  have hWassoc : s ++ sec ++ e = W := rfl
  have hWlen : W.length = s.length + sec.length + e.length := by
    simp [hWdef, List.length_append]
    omega
  have hfinds : pyFindNat W s = some 0 := by
    apply pyFindNat_zero
    have : W = s ++ (sec ++ e) := by simp [hWdef, List.append_assoc]
    rw [this]
    exact isPrefixOf_self_append s (sec ++ e)
  have hq : e.isPrefixOf (W.drop (s.length + sec.length)) = true := by
    have h1 : W.drop (s.length + sec.length) = e := by
      have hl : (s ++ sec).length = s.length + sec.length := by simp [List.length_append]
      rw [hWdef, ← hl, List.drop_left]
    rw [h1]
    exact isPrefixOf_refl e
  have hfinde : pyFindNat W e = some (s.length + sec.length) := by
    obtain ⟨n, hn, hnq⟩ := pyFindNat_of_match W e _ hq
    have hmn := pyFindNat_some_match W e n hn
    have hnW : n ≤ W.length := by omega
    have hdropW : text.drop (i + n) = W.drop n ++ text.drop (j + e.length) := by
      conv_lhs => rw [htext]
      have hWB : s ++ (sec ++ (e ++ text.drop (j + e.length))) = W ++ text.drop (j + e.length) := by
        simp [hWdef, List.append_assoc]
      rw [hWB, List.drop_append_eq_append_drop]
      rw [List.drop_eq_nil_of_le (by omega : (text.take i).length ≤ i + n)]
      rw [List.drop_append_eq_append_drop]
      have h2 : i + n - (text.take i).length = n := by omega
      rw [h2]
      have h3 : n - W.length = 0 := by omega
      rw [h3]
      simp
    have htr : e.isPrefixOf (text.drop (i + n)) = true := by
      rw [hdropW]
      obtain ⟨t, ht⟩ := List.isPrefixOf_iff_prefix.mp hmn
      apply List.isPrefixOf_iff_prefix.mpr
      exact ⟨t ++ text.drop (j + e.length), by rw [← List.append_assoc, ht]⟩
    have hinj := match_unique_of_singleton hmpe hene (i + n) htr
    have hneq : n = s.length + sec.length := by
      have : sec.length = j - (i + s.length) := hseclen
      omega
    rw [← hneq]
    exact hn
  show extract_content_from W s e = sec
  unfold extract_content_from pySlice
  rw [pyFind_eq hfinds, pyFind_eq hfinde]
  have ha : ((0 : Nat) : Int) + (s.length : Int) = ((s.length : Nat) : Int) := by push_cast; ring
  rw [ha, resolveIdx_ofNat _ _ (by omega), resolveIdx_ofNat _ _ (by omega)]
  have htake : W.take (s.length + sec.length) = s ++ sec := by
    have hl : (s ++ sec).length = s.length + sec.length := by simp [List.length_append]
    rw [hWdef, ← hl, List.take_left]
  rw [htake, List.drop_left]

end Falco

namespace Falco

/-- Claim C3 (amended): a named model that is not found and an empty filtered
user blueprints directory exit with code 1, and `--entry-point` without a full
model path exits with code 1; but no combination of the
`--only-python`/`--only-html`/`--entry-point` flags is itself rejected: with
both `--only-python` and `--only-html` set the command completes normally. -/
theorem C3_usage_errors_amended :
    (∀ (args : CrudArgs) (env : CrudEnv) pb rt ue rp rh,
      args.entry_point = true → (pySplitChar '.' args.model_path).length = 1 →
      exitCode (crudCall args env pb rt ue rp rh) = some 1) ∧
    (∀ (args : CrudArgs) (env : CrudEnv) pb rt ue rp rh,
      (pySplitChar '.' args.model_path).length ≠ 1 →
      (pySplitChar '.' args.model_path).getLastD [] ≠ [] →
      env.all_django_models.find?
        (fun dm => pyLower dm.name == pyLower ((pySplitChar '.' args.model_path).getLastD [])) = none →
      exitCode (crudCall args env pb rt ue rp rh) = some 1) ∧
    (∀ (args : CrudArgs) (env : CrudEnv) pb rt ue rp rh,
      (pySplitChar '.' args.model_path).length = 1 → args.entry_point = false →
      args.blueprints ≠ [] →
      env.user_blueprint_files.filter (fun f => (strL ".html").isSuffixOf f.1) = [] →
      exitCode (crudCall args env pb rt ue rp rh) = some 1) ∧
    (∀ (args : CrudArgs) (env : CrudEnv) pb rt ue rp rh,
      args.only_python = true → args.only_html = true →
      (pySplitChar '.' args.model_path).length = 1 → args.entry_point = false →
      args.blueprints = [] →
      exitCode (crudCall args env pb rt ue rp rh) = none) := by
  refine ⟨?_, ?_, ?_, ?_⟩
  · intro args env pb rt ue rp rh h1 h2
    simp [crudCall, h1, h2, truthy, exitCode]
  · intro args env pb rt ue rp rh h1 h2 h3
    rw [List.getLastD_eq_getLast?] at h2 h3
    have htr : truthy (some ((pySplitChar '.' args.model_path).getLast?.getD [])) = true := by
      cases hl : (pySplitChar '.' args.model_path).getLast?.getD [] with
      | nil => exact absurd hl h2
      | cons c t => simp [truthy]
    simp [crudCall, h1, htr, h3, exitCode]
  · intro args env pb rt ue rp rh h1 h2 h3 h4
    simp [crudCall, h1, h2, truthy, resolve_html_blueprints, h3, h4, exitCode]
  · intro args env pb rt ue rp rh h1 h2 h3 h4 h5
    simp [crudCall, h3, h4, truthy, resolve_html_blueprints, h5, exitCode]

end Falco

namespace Falco

theorem pyReplace_noocc_mp (old new s : List Char) (o : Char) (tail : List Char)
    (hold : old = o :: tail) (hmp : matchPositions s old = []) : pyReplace s old new = s := by
  subst hold
  exact pyReplace_of_no_match new s (noMatch_of_matchPositions_nil hmp (by simp))

/-- Claim C3 counterexample: the conflicting combination `--only-python
--only-html` is not reported; the command completes with no error exit. -/
theorem C3_counterexample :
    exitCode (crudCall
      { model_path := strL "myapp.product", blueprints := [], excluded_fields := [],
        only_python := true, only_html := true, entry_point := false }
      { all_django_models := [⟨strL "Product", strL "Products", []⟩],
        user_blueprint_files := [], default_html_blueprints := [] }
      [] (fun _ => []) false (fun _ _ => []) (fun _ _ => [])) = none := by
  rfl

/-- Claim C3 witness: concrete runs hitting the two exits, the entry-point
exit and the conflicting-flags completion. -/
theorem C3_witness :
    exitCode (crudCall
      { model_path := strL "myapp", blueprints := [], excluded_fields := [],
        only_python := false, only_html := false, entry_point := true }
      { all_django_models := [], user_blueprint_files := [], default_html_blueprints := [] }
      [] (fun _ => []) false (fun _ _ => []) (fun _ _ => [])) = some 1 ∧
    exitCode (crudCall
      { model_path := strL "myapp.product", blueprints := [], excluded_fields := [],
        only_python := false, only_html := false, entry_point := false }
      { all_django_models := [], user_blueprint_files := [], default_html_blueprints := [] }
      [] (fun _ => []) false (fun _ _ => []) (fun _ _ => [])) = some 1 ∧
    exitCode (crudCall
      { model_path := strL "myapp", blueprints := strL "custom", excluded_fields := [],
        only_python := false, only_html := false, entry_point := false }
      { all_django_models := [], user_blueprint_files := [(strL "a.txt", [])],
        default_html_blueprints := [] }
      [] (fun _ => []) false (fun _ _ => []) (fun _ _ => [])) = some 1 ∧
    exitCode (crudCall
      { model_path := strL "shop", blueprints := [], excluded_fields := [],
        only_python := true, only_html := true, entry_point := false }
      { all_django_models := [⟨strL "Item", strL "Items", []⟩],
        user_blueprint_files := [], default_html_blueprints := [] }
      [] (fun _ => []) false (fun _ _ => []) (fun _ _ => [])) = none :=
  ⟨C3_usage_errors_amended.1 _ _ [] (fun _ => []) false (fun _ _ => []) (fun _ _ => [])
      rfl (by decide),
   C3_usage_errors_amended.2.1 _ _ [] (fun _ => []) false (fun _ _ => []) (fun _ _ => [])
      (by decide) (by decide) rfl,
   C3_usage_errors_amended.2.2.1 _ _ [] (fun _ => []) false (fun _ _ => []) (fun _ _ => [])
      (by decide) rfl (by decide) rfl,
   C3_usage_errors_amended.2.2.2 _ _ [] (fun _ => []) false (fun _ _ => []) (fun _ _ => [])
      rfl rfl (by decide) rfl rfl⟩

end Falco

namespace Falco

/-- Claim C1: contrary to the specification, `extract_content_from` does not
return the empty string when the end marker is absent: on the failing input
`"# IMPORTS:STARTabc"` (no `# IMPORTS:END`) it returns `"ab"`, the Python
slice `text[15:-1]`, because `find` yields `-1` for the absent marker. -/
theorem C1_extract_missing_marker_eval :
    matchPositions (strL "# IMPORTS:STARTabc") IMPORT_END_COMMENT = [] ∧
    extract_content_from (strL "# IMPORTS:STARTabc") IMPORT_START_COMMENT IMPORT_END_COMMENT =
      strL "ab" ∧
    extract_content_from (strL "# IMPORTS:STARTabc") IMPORT_START_COMMENT IMPORT_END_COMMENT ≠
      [] := by
  refine ⟨by decide, by decide, by decide⟩

/-- Claim C2 counterexample: with entry_point set, model `product` and the
blueprint filename `list_checklist.html`, the code renames every occurrence of
`list`, producing `index_checkindex.html`, not the claimed
`index_checklist.html` (leading rename only). -/
theorem C2_counterexample :
    destFilename (strL "product") (strL "list_checklist.html") true =
      strL "index_checkindex.html" ∧
    destFilename (strL "product") (strL "list_checklist.html") true ≠
      strL "index_checklist.html" := by
  refine ⟨by decide, by decide⟩

/-- Claim C2 (amended): the destination filename is `m ++ "_" ++ f` (just `f`
when entry_point is set); when that name does not begin with `list` it is kept
unchanged, and when it begins with `list` every occurrence of `list` in it is
renamed to `index` (not only the leading one). -/
theorem C2_dest_filename_amended :
    (∀ m f : List Char, (strL "list").isPrefixOf (m ++ strL "_" ++ f) = false →
        destFilename m f false = m ++ strL "_" ++ f) ∧
    (∀ m f : List Char, (strL "list").isPrefixOf f = false →
        destFilename m f true = f) ∧
    (∀ (m : List Char) (parts : List (List Char)), parts ≠ [] →
        (∀ s ∈ parts, ∀ c ∈ s, c ≠ 'l') →
        destFilename m (joinWith (strL "list") ([] :: parts)) true =
          joinWith (strL "index") ([] :: parts)) := by
  refine ⟨?_, ?_, ?_⟩
  · intro m f h
    unfold destFilename
    simp [h]
    intro hp
    exfalso
    have hb : (strL "list").isPrefixOf (m ++ strL "_" ++ f) = true :=
      List.isPrefixOf_iff_prefix.mpr (by rw [List.append_assoc]; exact hp)
    rw [h] at hb
    exact Bool.noConfusion hb
  · intro m f h
    unfold destFilename
    simp [h]
  · intro m parts hne hfree
    cases parts with
    | nil => exact absurd rfl hne
    | cons p r =>
      have hpre : (strL "list").isPrefixOf (joinWith (strL "list") ([] :: p :: r)) = true := by
        show (strL "list").isPrefixOf
          (([] : List Char) ++ strL "list" ++ joinWith (strL "list") (p :: r)) = true
        exact isPrefixOf_self_append (strL "list") _
      unfold destFilename
      simp only [if_pos rfl, hpre, if_true]
      have hlist : strL "list" = 'l' :: strL "ist" := rfl
      rw [hlist]
      refine pyReplace_joinWith (strL "ist") (strL "index") ([] :: p :: r) (by simp) ?_
      intro s hs c hc
      rcases List.mem_cons.mp hs with h | h
      · subst h
        simp at hc
      · exact hfree s h c hc

/-- Claim C2 witness: the amended filename rule evaluated at concrete inputs. -/
theorem C2_witness :
    destFilename (strL "product") (strL "detail.html") false =
      strL "product" ++ strL "_" ++ strL "detail.html" ∧
    destFilename (strL "product") (strL "detail.html") true = strL "detail.html" ∧
    destFilename (strL "m") (joinWith (strL "list") [[], strL "_foo.htm"]) true =
      joinWith (strL "index") [[], strL "_foo.htm"] :=
  ⟨C2_dest_filename_amended.1 (strL "product") (strL "detail.html") (by decide),
   C2_dest_filename_amended.2.1 (strL "product") (strL "detail.html") (by decide),
   C2_dest_filename_amended.2.2 (strL "m") [strL "_foo.htm"] (by decide) (by decide)⟩

/-- Claim C4: with entry_point unset, the accumulated imports, code and urls
contents are exactly the concatenation, in context order and with no separator,
of the per-context renders (and per-context url blocks). -/
theorem C4_accumulator_concat (render : List Char → PyCtx → List Char)
    (imports_template code_template : List Char) (contexts : List PyCtx) :
    (genLoop render imports_template code_template false contexts).imports_content =
      (contexts.map (fun c => render imports_template c)).flatten ∧
    (genLoop render imports_template code_template false contexts).code_content =
      (contexts.map (fun c => render code_template c)).flatten ∧
    (genLoop render imports_template code_template false contexts).urls_content =
      (contexts.map (fun c =>
        get_urls (pyLower c.model_name) (urlsafe_plural c.model_verbose_name_plural))).flatten := by
  unfold genLoop
  rw [genLoop_foldl_false]
  exact ⟨by simp, by simp, by simp⟩

/-- Claim C5 witness: round-trip at a concrete well-formed text. -/
theorem C5_witness :
    matchPositions (strL "aSxyzEb") (strL "S") = [1] ∧
    matchPositions (strL "aSxyzEb") (strL "E") = [5] ∧
    extract_content_from
        (strL "S" ++ extract_content_from (strL "aSxyzEb") (strL "S") (strL "E") ++ strL "E")
        (strL "S") (strL "E") =
      extract_content_from (strL "aSxyzEb") (strL "S") (strL "E") :=
  ⟨by decide, by decide,
   C5_extract_roundtrip (strL "aSxyzEb") (strL "S") (strL "E") 1 5
     (by decide) (by decide) (by decide) (by decide) (by decide)⟩

/-- Claim C6: for model `Product` with display plural `Products`, entry-point
collapsing maps the route prefix `products/` to the empty string and the
function name `product_list` to `index`, on both the url pass and the code
pass. -/
theorem C6_entry_point_collapse :
    urlsafe_plural (strL "Products") = strL "products" ∧
    entryUrlPass (strL "products") (strL "product") (strL "products/") = [] ∧
    entryUrlPass (strL "products") (strL "product") (strL "product_list") = strL "index" ∧
    entryCodePass (strL "product") (strL "product_list") = strL "index" := by
  refine ⟨by decide, by decide, by decide, by decide⟩

end Falco

namespace Falco

/-- Claim C7: for model `order`, the pagination patch rewrites every
`products.has_next` occurrence (segments free of the table's leading
characters, joined by the needle) into `orders.has_next`, and content with no
occurrence of any source string of the table passes through unchanged. -/
theorem C7_pagination_patch :
    (∀ parts : List (List Char), parts ≠ [] →
      (∀ s ∈ parts, ∀ c ∈ s, c ≠ 'p' ∧ c ≠ 'f') →
      patch_paginations_variables (strL "order") (joinWith (strL "products.has_next") parts) =
        joinWith (strL "orders.has_next") parts) ∧
    (∀ m content : List Char,
      (∀ p ∈ conversionMap m, matchPositions content p.1 = []) →
      patch_paginations_variables m content = content) := by
  constructor
  · exact patch_joinWith
  · intro m content h
    simp only [patch_paginations_variables, conversionMap, List.foldl]
    rw [pyReplace_noocc_mp (strL "products.has_previous") _ content 'p'
      (strL "roducts.has_previous") (by rfl)
      (h (strL "products.has_previous", m ++ strL "s.has_previous") (by simp [conversionMap]))]
    rw [pyReplace_noocc_mp (strL "products.has_next") _ content 'p'
      (strL "roducts.has_next") (by rfl)
      (h (strL "products.has_next", m ++ strL "s.has_next") (by simp [conversionMap]))]
    rw [pyReplace_noocc_mp (strL "products.paginator.page_range") _ content 'p'
      (strL "roducts.paginator.page_range") (by rfl)
      (h (strL "products.paginator.page_range", m ++ strL "s.paginator.page_range")
        (by simp [conversionMap]))]
    rw [pyReplace_noocc_mp (strL "products.number") _ content 'p'
      (strL "roducts.number") (by rfl)
      (h (strL "products.number", m ++ strL "s.number") (by simp [conversionMap]))]
    rw [pyReplace_noocc_mp (strL "products.next_page_number") _ content 'p'
      (strL "roducts.next_page_number") (by rfl)
      (h (strL "products.next_page_number", m ++ strL "s.next_page_number")
        (by simp [conversionMap]))]
    rw [pyReplace_noocc_mp (strL "products.previous_page_number") _ content 'p'
      (strL "roducts.previous_page_number") (by rfl)
      (h (strL "products.previous_page_number", m ++ strL "s.previous_page_number")
        (by simp [conversionMap]))]
    rw [pyReplace_noocc_mp (strL "products.num_pages") _ content 'p'
      (strL "roducts.num_pages") (by rfl)
      (h (strL "products.num_pages", m ++ strL "s.num_pages") (by simp [conversionMap]))]
    rw [pyReplace_noocc_mp (strL "products.paginator.num_pages") _ content 'p'
      (strL "roducts.paginator.num_pages") (by rfl)
      (h (strL "products.paginator.num_pages", m ++ strL "s.paginator.num_pages")
        (by simp [conversionMap]))]
    rw [pyReplace_noocc_mp (strL "for product in products") _ content 'f'
      (strL "or product in products") (by rfl)
      (h (strL "for product in products",
          strL "for " ++ m ++ strL " in " ++ m ++ strL "s") (by simp [conversionMap]))]

/-- Claim C7 witness: the patch evaluated at a concrete join and at concrete
key-free content. -/
theorem C7_witness :
    patch_paginations_variables (strL "order")
        (joinWith (strL "products.has_next") [strL "a ", strL " b"]) =
      joinWith (strL "orders.has_next") [strL "a ", strL " b"] ∧
    patch_paginations_variables (strL "x") (strL "zz") = strL "zz" :=
  ⟨C7_pagination_patch.1 [strL "a ", strL " b"] (by decide) (by decide),
   C7_pagination_patch.2 (strL "x") (strL "zz") (by decide)⟩

/-- Claim C9: the pluralization/URL-safety pass (lowercase, then each space to
a hyphen) is idempotent on every string. -/
theorem C9_slug_idempotent (s : List Char) :
    urlsafe_plural (urlsafe_plural s) = urlsafe_plural s := by
  rw [urlsafe_plural_as_map (urlsafe_plural s), urlsafe_plural_as_map s, List.map_map]
  have hg : ((fun c : Char => if c.toLower = ' ' then '-' else c.toLower) ∘
      (fun c : Char => if c.toLower = ' ' then '-' else c.toLower)) =
      (fun c : Char => if c.toLower = ' ' then '-' else c.toLower) :=
    funext fun c => urlsafe_step_idem c
  rw [hg]

/-- Claim C10: with entry_point set, all three collapsing passes replace every
occurrence of the substring `list` with `index`, including occurrences embedded
in longer words such as `blacklist`, not only the list-view identifier. -/
theorem C10_replace_all_occurrences :
    entryHtmlCollapse (strL "product") (strL "blacklist") = strL "blackindex" ∧
    entryCodePass (strL "product") (strL "blacklist") = strL "blackindex" ∧
    entryUrlPass (strL "products") (strL "product") (strL "blacklist") = strL "blackindex" ∧
    (∀ parts : List (List Char), parts ≠ [] →
      (∀ s ∈ parts, ∀ c ∈ s, c ≠ 'l' ∧ c ≠ 'p') →
      entryHtmlCollapse (strL "product") (joinWith (strL "list") parts) =
        joinWith (strL "index") parts ∧
      entryCodePass (strL "product") (joinWith (strL "list") parts) =
        joinWith (strL "index") parts ∧
      entryUrlPass (strL "products") (strL "product") (joinWith (strL "list") parts) =
        joinWith (strL "index") parts) := by
  refine ⟨by decide, by decide, by decide, ?_⟩
  intro parts hne hfree
  have hJp : ∀ c ∈ joinWith (strL "list") parts, c ≠ 'p' := by
    intro c hc
    rcases mem_joinWith (strL "list") parts hc with h | ⟨s, hsmem, hcs⟩
    · have hsep : ∀ x ∈ strL "list", x ≠ 'p' := by decide
      exact hsep c h
    · exact (hfree s hsmem c hcs).2
  have hIp : ∀ c ∈ joinWith (strL "index") parts, c ≠ 'p' := by
    intro c hc
    rcases mem_joinWith (strL "index") parts hc with h | ⟨s, hsmem, hcs⟩
    · have hsep : ∀ x ∈ strL "index", x ≠ 'p' := by decide
      exact hsep c h
    · exact (hfree s hsmem c hcs).2
  have hLfree : ∀ s ∈ parts, ∀ c ∈ s, c ≠ 'l' := fun s hs c hc => (hfree s hs c hc).1
  have hlist : strL "list" = 'l' :: strL "ist" := rfl
  have hskip1 : pyReplace (joinWith (strL "list") parts) (strL "product" ++ strL "_") [] =
      joinWith (strL "list") parts := by
    have hn : strL "product" ++ strL "_" = 'p' :: strL "roduct_" := rfl
    rw [hn]
    exact pyReplace_noocc_char (strL "roduct_") [] _ hJp
  have hrepl : pyReplace (joinWith (strL "list") parts) (strL "list") (strL "index") =
      joinWith (strL "index") parts := by
    rw [hlist]
    exact pyReplace_joinWith (strL "ist") (strL "index") parts hne hLfree
  have hskip3 : pyReplace (joinWith (strL "index") parts) (strL "product" ++ strL "_") [] =
      joinWith (strL "index") parts := by
    have hn : strL "product" ++ strL "_" = 'p' :: strL "roduct_" := rfl
    rw [hn]
    exact pyReplace_noocc_char (strL "roduct_") [] _ hIp
  have hskipurl : pyReplace (joinWith (strL "list") parts) (strL "products" ++ strL "/") [] =
      joinWith (strL "list") parts := by
    have hn : strL "products" ++ strL "/" = 'p' :: strL "roducts/" := rfl
    rw [hn]
    exact pyReplace_noocc_char (strL "roducts/") [] _ hJp
  refine ⟨?_, ?_, ?_⟩
  · show pyReplace (pyReplace (joinWith (strL "list") parts) (strL "product" ++ strL "_") [])
        (strL "list") (strL "index") = joinWith (strL "index") parts
    rw [hskip1, hrepl]
  · show pyReplace (pyReplace (joinWith (strL "list") parts) (strL "product" ++ strL "_") [])
        (strL "list") (strL "index") = joinWith (strL "index") parts
    rw [hskip1, hrepl]
  · show pyReplace (pyReplace (pyReplace (joinWith (strL "list") parts)
        (strL "products" ++ strL "/") []) (strL "list") (strL "index"))
        (strL "product" ++ strL "_") [] = joinWith (strL "index") parts
    rw [hskipurl, hrepl, hskip3]

/-- Claim C10 witness: the collapsing passes evaluated at a concrete join. -/
theorem C10_witness :
    entryHtmlCollapse (strL "product") (joinWith (strL "list") [strL "abc", strL "de"]) =
      joinWith (strL "index") [strL "abc", strL "de"] :=
  (C10_replace_all_occurrences.2.2.2 [strL "abc", strL "de"] (by decide) (by decide)).1

end Falco
